import Mathlib

/-!
Verification of `libredex/MethodProfiles.cpp` (method-profile CSV parsing and
the profile-guided method comparator).

The embedding models C++ strings as `List Char`, `double` cells as exact
rationals (every numeric literal appearing in the verified scenarios is a
short decimal, exactly representable), machine integers as `Int` with the
explicit range assertions of the source, the external symbol table
(`DexMethod::get_method`) as a function `List Char → Option Nat`, and the
process-terminating `always_assert` macros as a distinct `fatal` outcome,
separate from the ordinary `false` return (`err`) of the parse functions.
Reading `std::string::back()` on an empty string is undefined behaviour and
is modelled as a fourth outcome `ub`.
-/

/-- Outcome of a parsing step: `ok` (the C++ function returns true), `err`
(the C++ function returns false), `fatal` (a failed `always_assert` /
`always_assert_log` terminates the process), `ub` (undefined behaviour:
`std::string::back()` on an empty string). -/
inductive PRes (α : Type) : Type
  | ok (a : α)
  | err
  | fatal
  | ub
deriving DecidableEq

/-- Sequencing of parse outcomes: later steps run only after an `ok`. -/
def PRes.bind {α β : Type} : PRes α → (α → PRes β) → PRes β
  | .ok a, f => f a
  | .err, _ => .err
  | .fatal, _ => .fatal
  | .ub, _ => .ub

/-- Lookup in an association list, the embedding of `std::map` /
`std::unordered_map` `find`: the stored value of the first matching key. -/
def alookup {α β : Type} [DecidableEq α] : List (α × β) → α → Option β
  | [], _ => none
  | (k, v) :: rest, a => if a = k then some v else alookup rest a

/-- Embedding of map `emplace`: insert only when the key is absent (the
pre-existing value wins; `emplace` never overwrites). Entry order in the
list is irrelevant — `alookup` is the observable interface. -/
def aemplace {α β : Type} [DecidableEq α] (l : List (α × β)) (k : α) (v : β) :
    List (α × β) :=
  match alookup l k with
  | some _ => l
  | none => (k, v) :: l

/-- Embedding of storing through `operator[]`: replace the value at the key,
adding the key when absent. -/
def aset {α β : Type} [DecidableEq α] : List (α × β) → α → β → List (α × β)
  | [], k, v => [(k, v)]
  | (k0, v0) :: rest, k, v =>
    if k = k0 then (k, v) :: rest else (k0, v0) :: aset rest k v

/-- Modelled from the spec: the Cell Parser (`parse_cells`, declared in
`MethodProfiles.h`, not under `src/`) splits one line on the comma field
delimiter; the line terminator, when present on the final token, is
preserved as part of that token, empty cells yield empty tokens, and a line
with no delimiter yields one token holding the whole line. -/
def splitCommaAux : List Char → List Char → List (List Char)
  | [], cur => [cur.reverse]
  | c :: rest, cur =>
    if c = ',' then cur.reverse :: splitCommaAux rest []
    else splitCommaAux rest (c :: cur)

/-- Split a raw line into comma-separated cells. -/
def splitComma (line : List Char) : List (List Char) :=
  splitCommaAux line []

/-- Modelled from the spec: the Cell Parser invokes the per-cell callback
with `(token, column_index)`, indices from 0, stopping on the first
non-`ok` outcome. -/
def run_cells {σ : Type} (cell : Nat → List Char → σ → PRes σ) :
    List (List Char) → Nat → σ → PRes σ
  | [], _, s => .ok s
  | tok :: rest, i, s => (cell i tok s).bind (fun s2 => run_cells cell rest (i + 1) s2)

/-- Leading digit run of a character list and the remainder (the digits
consumed by `strtol` / `strtod`). -/
def takeDigits : List Char → (List Char × List Char)
  | [] => ([], [])
  | c :: rest =>
    if c.isDigit then
      let p := takeDigits rest
      (c :: p.1, p.2)
    else ([], c :: rest)

/-- Numeric value of a digit run, most significant first. -/
def digitsToNat : List Char → Nat → Nat
  | [], acc => acc
  | c :: rest, acc => digitsToNat rest (acc * 10 + (c.toNat - 48))

/-- The trailing-text check shared by `parse_int` and `parse_double`:
`len == 0 || (len == 1 && rest[0] == '\n')`. -/
def restOkForNum (rest : List Char) : Bool :=
  rest = [] || rest = ['\n']

/-- Optional sign at the front of a numeric token: returns (negative, rest). -/
def splitSign : List Char → (Bool × List Char)
  | '-' :: rest => (true, rest)
  | '+' :: rest => (false, rest)
  | cs => (false, cs)

/-- Embedding of `parse_int` (MethodProfiles.cpp): `strtol` base 10 over the
whole remaining cell (leading whitespace and an optional sign, then a digit
run), followed by the two `always_assert_log` checks — a failed check is
`fatal` (process termination), never an ordinary `false` return. -/
def parse_int (tok : List Char) : PRes Int :=
  let p1 := splitSign (tok.dropWhile (fun c => c.isWhitespace))
  let p2 := takeDigits p1.2
  if p2.1 = [] then .fatal
  else if restOkForNum p2.2 then
    .ok (if p1.1 then -(digitsToNat p2.1 0 : Int) else (digitsToNat p2.1 0 : Int))
  else .fatal

/-- Embedding of `parse_double` (MethodProfiles.cpp): `strtod` over the
whole remaining cell, modelled for plain decimal forms (optional sign, digit
run, optional fraction) with an exact rational value, followed by the two
`always_assert_log` checks — a failed check is `fatal`. -/
def parse_double (tok : List Char) : PRes ℚ :=
  let p1 := splitSign (tok.dropWhile (fun c => c.isWhitespace))
  let ip := takeDigits p1.2
  let step : Bool × ℚ × List Char :=
    match ip.2 with
    | '.' :: r2 =>
      let fp := takeDigits r2
      (!ip.1.isEmpty || !fp.1.isEmpty,
        (digitsToNat ip.1 0 : ℚ) + (digitsToNat fp.1 0 : ℚ) / (10 : ℚ) ^ fp.1.length,
        fp.2)
    | _ => (!ip.1.isEmpty, (digitsToNat ip.1 0 : ℚ), ip.2)
  if step.1 = false then .fatal
  else if restOkForNum step.2.2 then
    .ok (if p1.1 then -step.2.1 else step.2.1)
  else .fatal

/-- Modelled from the spec: the per-(method, interaction) `Stats` record
(declared in `MethodProfiles.h`, not under `src/`): `appear_percent`,
`call_count`, `order_percent` (doubles, here exact rationals) and
`min_api_level` (16-bit signed, here `Int` with the source's explicit range
assertion), all zero-initialized. -/
structure Stats where
  appear_percent : ℚ
  call_count : ℚ
  order_percent : ℚ
  min_api_level : Int
deriving DecidableEq

/-- Parsing mode of the Profile Store state machine. -/
inductive PMode : Type
  | NONE
  | METADATA
  | MAIN
deriving DecidableEq

/-- State of `MethodProfiles`: mode, active interaction id, interaction
counts, optional-column registry, per-interaction stats maps, and the
unresolved-line backlog. -/
structure MPState where
  m_mode : PMode
  m_interaction_id : List Char
  m_interaction_counts : List (List Char × Int)
  m_optional_columns : List (Nat × List Char)
  m_method_stats : List (List Char × List (Nat × Stats))
  m_unresolved_lines : List (List Char × List (List Char))
deriving DecidableEq

/-- Modelled from the spec: the reserved canonical cold-start interaction id
(`COLD_START`, declared in `MethodProfiles.h`, not under `src/`), distinct
from the legacy empty-string id. -/
def COLD_START : List Char := "ColdStart".toList

/-- Embedding of `MethodProfiles::method_stats`: the stored map when the id
is present; for the canonical cold-start id, fall back to the map stored
under the empty string; otherwise the empty map. -/
def method_stats (all : List (List Char × List (Nat × Stats)))
    (iid : List Char) : List (Nat × Stats) :=
  match alookup all iid with
  | some sm => sm
  | none =>
    if iid = COLD_START then
      match alookup all [] with
      | some sm => sm
      | none => []
    else []

/-- The `m_method_stats[interaction_id].emplace(ref, stats)` update of
`parse_main`: `operator[]` default-constructs the per-interaction map when
absent, then `emplace` inserts only when the method key is absent. -/
def updateStats (all : List (List Char × List (Nat × Stats)))
    (iid : List Char) (r : Nat) (st : Stats) :
    List (List Char × List (Nat × Stats)) :=
  match alookup all iid with
  | some sm => aset all iid (aemplace sm r st)
  | none => (iid, aemplace [] r st) :: all

/-- The `m_unresolved_lines[interaction_id].push_back(copy)` update of
`parse_main`. -/
def pushUnresolved (ul : List (List Char × List (List Char)))
    (iid : List Char) (line : List Char) :
    List (List Char × List (List Char)) :=
  match alookup ul iid with
  | some ls => aset ul iid (ls ++ [line])
  | none => (iid, [line]) :: ul

/-- Embedding of the per-cell callback of `MethodProfiles::parse_main`
(columns: 0 INDEX, 1 NAME, 2 APPEAR100, 3 APPEAR_NUMBER, 4 AVG_CALL,
5 AVG_ORDER, 6 AVG_RANK100, 7 MIN_API_LEVEL, others dispatched through the
optional-column registry; only the `interaction` optional column is
accepted). The accumulator mirrors the captured locals
`(ref, interaction_id, stats)`. -/
def main_cell (sym : List Char → Option Nat) (optcols : List (Nat × List Char))
    (i : Nat) (tok : List Char) (acc : Option Nat × List Char × Stats) :
    PRes (Option Nat × List Char × Stats) :=
  match i with
  | 0 => .ok acc
  | 1 => .ok (sym tok, acc.2.1, acc.2.2)
  | 2 => (parse_double tok).bind fun v =>
      .ok (acc.1, acc.2.1, { acc.2.2 with appear_percent := v })
  | 3 => .ok acc
  | 4 => (parse_double tok).bind fun v =>
      .ok (acc.1, acc.2.1, { acc.2.2 with call_count := v })
  | 5 => .ok acc
  | 6 => (parse_double tok).bind fun v =>
      .ok (acc.1, acc.2.1, { acc.2.2 with order_percent := v })
  | 7 => (parse_int tok).bind fun v =>
      if v ≤ 32767 ∧ -32768 ≤ v then
        .ok (acc.1, acc.2.1, { acc.2.2 with min_api_level := v })
      else .fatal
  | _ =>
    match alookup optcols i with
    | some nm =>
      if nm = "interaction".toList then
        match tok.getLast? with
        | none => .ub
        | some c => .ok (acc.1, (if c = '\n' then tok.dropLast else tok), acc.2.2)
      else .err
    | none => .err

/-- Embedding of `MethodProfiles::parse_main`: run the cell callback over
the comma-split line, then commit the row — a resolved name inserts the
`Stats` into that interaction's map via `emplace`; an unresolved name
appends the raw line to the backlog under the row's interaction id (the
row-local id when non-empty, else the active metadata id). -/
def parse_main (sym : List Char → Option Nat) (s : MPState) (line : List Char) :
    PRes MPState :=
  if s.m_mode ≠ PMode.MAIN then .fatal
  else
    (run_cells (main_cell sym s.m_optional_columns) (splitComma line) 0
        (none, [], ⟨0, 0, 0, 0⟩)).bind fun acc =>
      let iid := if acc.2.1 = [] then s.m_interaction_id else acc.2.1
      match acc.1 with
      | some r => .ok { s with m_method_stats := updateStats s.m_method_stats iid r acc.2.2 }
      | none => .ok { s with m_unresolved_lines := pushUnresolved s.m_unresolved_lines iid line }

/-- Embedding of the per-cell callback of `MethodProfiles::parse_metadata`:
cell 0 is the interaction id, cell 1 the count (`parse_int` then the
unsigned-32-bit range assertions), any further cell fails. -/
def metadata_cell (i : Nat) (tok : List Char) (acc : List Char × Int) :
    PRes (List Char × Int) :=
  match i with
  | 0 => .ok (tok, acc.2)
  | 1 => (parse_int tok).bind fun v =>
      if v ≤ 4294967295 ∧ 0 ≤ v then .ok (acc.1, v) else .fatal
  | _ => .err

/-- Embedding of `MethodProfiles::parse_metadata`: parse the single
metadata line, record the (id, count) pair via `emplace`, set the active
interaction id, and revert the mode to `NONE`. -/
def parse_metadata (s : MPState) (line : List Char) : PRes MPState :=
  if s.m_mode ≠ PMode.METADATA then .fatal
  else
    (run_cells metadata_cell (splitComma line) 0 ([], 0)).bind fun acc =>
      .ok { s with
              m_interaction_id := acc.1,
              m_interaction_counts := aemplace s.m_interaction_counts acc.1 acc.2,
              m_mode := PMode.NONE }

/-- The fixed MAIN header schema, column index to expected cell text. -/
def main_header_names : List (List Char) :=
  ["index".toList, "name".toList, "appear100".toList, "appear#".toList,
   "avg_call".toList, "avg_order".toList, "avg_rank100".toList,
   "min_api_level".toList]

/-- Embedding of the MAIN-header cell callback of
`MethodProfiles::parse_header`: the first eight cells must equal the fixed
schema (`check_cell`, full-text comparison for cells shorter than the
1000-character cap); any further cell is registered as an optional column
under its text with a trailing line terminator stripped
(`column_name.back()` on an empty cell is undefined behaviour). -/
def header_main_cell (i : Nat) (tok : List Char)
    (optcols : List (Nat × List Char)) : PRes (List (Nat × List Char)) :=
  match main_header_names.get? i with
  | some expected => if tok = expected then .ok optcols else .err
  | none =>
    match tok.getLast? with
    | none => .ub
    | some c => .ok (aemplace optcols i (if c = '\n' then tok.dropLast else tok))

/-- Embedding of the metadata-header cell callback of
`MethodProfiles::parse_header`: cells 0 and 1 must be `interaction` and
`appear#`; any further cell must be empty or a lone line terminator. -/
def header_metadata_cell (i : Nat) (tok : List Char) (_ : Unit) : PRes Unit :=
  match i with
  | 0 => if tok = "interaction".toList then .ok () else .err
  | 1 => if tok = "appear#".toList then .ok () else .err
  | _ => if tok = [] ∨ tok = ['\n'] then .ok () else .err

/-- Boolean prefix test on character lists (the embedding of
`strncmp(line, "interaction", 11) == 0`). -/
def isPrefixOfCL : List Char → List Char → Bool
  | [], _ => true
  | _ :: _, [] => false
  | a :: as, b :: bs => a = b && isPrefixOfCL as bs

/-- Embedding of `MethodProfiles::parse_header`: a line starting with
`interaction` switches to `METADATA` mode and is validated against the
two-column metadata schema; any other line switches to `MAIN` mode and is
validated against the fixed schema, registering extra columns. -/
def parse_header (s : MPState) (line : List Char) : PRes MPState :=
  if s.m_mode ≠ PMode.NONE then .fatal
  else if isPrefixOfCL "interaction".toList line then
    (run_cells header_metadata_cell (splitComma line) 0 ()).bind fun _ =>
      .ok { s with m_mode := PMode.METADATA }
  else
    (run_cells header_main_cell (splitComma line) 0 s.m_optional_columns).bind fun oc =>
      .ok { s with m_mode := PMode.MAIN, m_optional_columns := oc }

/-- Embedding of `MethodProfiles::parse_line`: dispatch on the mode; an
invalid mode is a failed `always_assert_log`. -/
def parse_line (sym : List Char → Option Nat) (s : MPState) (line : List Char) :
    PRes MPState :=
  match s.m_mode with
  | PMode.MAIN => parse_main sym s line
  | PMode.METADATA => parse_metadata s line
  | PMode.NONE => .fatal

/-- Embedding of the line loop of `MethodProfiles::parse_stats_file`, over
the list of lines produced by `getline` (file I/O, `errno`, and buffer
management are out of scope): in `NONE` mode the next line is a header,
otherwise it is dispatched by `parse_line`; the first non-`ok` outcome
aborts the whole parse. -/
def parse_stats_file (sym : List Char → Option Nat) (s : MPState) :
    List (List Char) → PRes MPState
  | [] => .ok s
  | l :: rest =>
    (if s.m_mode = PMode.NONE then parse_header s l else parse_line sym s l).bind
      fun s2 => parse_stats_file sym s2 rest

/-- One backlog group of `MethodProfiles::process_unresolved_lines`: each
stored line re-parsed by `parse_main`; `always_assert(success)` turns a
`false` return into process termination. -/
def process_unresolved_group (sym : List Char → Option Nat) :
    MPState → List (List Char) → PRes MPState
  | s, [] => .ok s
  | s, l :: rest =>
    match parse_main sym s l with
    | .ok s2 => process_unresolved_group sym s2 rest
    | .err => .fatal
    | .fatal => .fatal
    | .ub => .ub

/-- The group loop of `MethodProfiles::process_unresolved_lines`: for each
backlog entry, restore its recorded interaction id as the active one and
re-parse its lines. -/
def process_unresolved_groups (sym : List Char → Option Nat) :
    MPState → List (List Char × List (List Char)) → PRes MPState
  | s, [] => .ok s
  | s, (iid, lines) :: rest =>
    (process_unresolved_group sym { s with m_interaction_id := iid } lines).bind
      fun s2 => process_unresolved_groups sym s2 rest

/-- Embedding of `MethodProfiles::process_unresolved_lines`: snapshot the
backlog, clear it, and re-parse every stored line as a MAIN row under its
recorded interaction id. -/
def process_unresolved_lines (sym : List Char → Option Nat) (s : MPState) :
    PRes MPState :=
  process_unresolved_groups sym { s with m_unresolved_lines := [] }
    s.m_unresolved_lines

/-- Lexicographic `<` on character lists, the embedding of
`std::string::operator<` (byte-wise comparison; codepoint order coincides
with byte order on the ASCII ids in play). -/
def strLtCL : List Char → List Char → Bool
  | [], [] => false
  | [], _ :: _ => true
  | _ :: _, [] => false
  | a :: as, b :: bs => if a < b then true else if b < a then false else strLtCL as bs

/-- Embedding of the interaction-ordering lambda passed to `std::sort` in
the `dexmethods_profiled_comparator` constructor: cold start claims to come
first, otherwise lexicographic. -/
def interaction_lt (a b : List Char) : Bool :=
  if a = COLD_START ∧ b ≠ COLD_START then true else strLtCL a b

/-- One step of the insertion-sort model of `std::sort`: insert `x` into a
reversed sorted prefix, scanning from its right end and moving `x` left
while the comparator says `x` is less (`libstdc++` linear insertion; for
ranges below the introsort threshold `std::sort` is exactly insertion
sort). -/
def insert_rtl {α : Type} (lt : α → α → Bool) (x : α) : List α → List α
  | [] => [x]
  | y :: ys => if lt x y then y :: insert_rtl lt x ys else x :: y :: ys

/-- Deterministic model of `std::sort` for the small interaction lists in
play: left-to-right insertion sort with right-to-left linear insertion. -/
def sort_model {α : Type} (lt : α → α → Bool) (l : List α) : List α :=
  (l.foldl (fun acc x => insert_rtl lt x acc) []).reverse

/-- Embedding of the interaction-list construction in the
`dexmethods_profiled_comparator` constructor: normalize the empty id to
`COLD_START`, keep only cold start in legacy mode, and sort with
`interaction_lt`. The input list carries the interaction ids of the Profile
Store in their (unspecified) traversal order. -/
def comparator_interactions (legacy : Bool) (ids : List (List Char)) :
    List (List Char) :=
  sort_model interaction_lt
    (ids.filterMap (fun id =>
      let nid := if id = [] then COLD_START else id
      if ¬legacy ∨ nid = COLD_START then some nid else none))

/-- Modelled from the spec: the sort-key configuration constants declared in
`MethodProfiles.h` (not under `src/`) are kept abstract; §4.3 and the
design notes only constrain them (`RANGE_SIZE ≤ RANGE_STRIDE` with a
trailing gap, `VERY_END` beyond every allocated range). -/
structure SortConfig where
  RANGE_SIZE : ℚ
  RANGE_STRIDE : ℚ
  VERY_END : ℚ

/-- Modelled from the spec: cold start owns the first range, so its range
begins at 0 (`COLD_START_RANGE_BEGIN`, declared in `MethodProfiles.h`). -/
def COLD_START_RANGE_BEGIN : ℚ := 0

/-- A constructed `dexmethods_profiled_comparator`: the Profile Store it
reads (`m_method_profiles`, accessed through `method_stats`), the computed
interaction list, the two cold-start sentinel markers, the legacy flag, the
whitelisted substrings, and the deobfuscated display names (the external
symbol table's `show` side, a read-only lookup). -/
structure Comparator where
  profiles : List (List Char × List (Nat × Stats))
  interactions : List (List Char)
  start_marker : Option Nat
  end_marker : Option Nat
  legacy : Bool
  whitelist : List (List Char)
  deobf : Nat → List Char

/-- The placement attempt of `get_method_sort_num` for a single interaction
with its range beginning at `rb`: cold-start sentinel markers first (when
both resolved), then the per-interaction stats heuristic (legacy midpoint
placement at `appear_percent ≥ 95`, modern order-weighted placement at
`appear_percent ≥ 90`); `none` means fall through to the next range. -/
def placeInInteraction (cfg : SortConfig) (c : Comparator) (m : Nat)
    (id : List Char) (rb : ℚ) : Option ℚ :=
  let marker : Option ℚ :=
    if id = COLD_START ∧ c.start_marker ≠ none ∧ c.end_marker ≠ none then
      if c.start_marker = some m then some rb
      else if c.end_marker = some m then some (rb + cfg.RANGE_SIZE)
      else none
    else none
  match marker with
  | some k => some k
  | none =>
    match alookup (method_stats c.profiles id) m with
    | some st =>
      if c.legacy ∧ 95 ≤ st.appear_percent then some (rb + cfg.RANGE_SIZE / 2)
      else if ¬c.legacy ∧ 90 ≤ st.appear_percent then
        some (rb + st.order_percent * cfg.RANGE_SIZE / 100)
      else none
    | none => none

/-- The range walk of `get_method_sort_num`: try each interaction in list
order, advancing the range begin by `RANGE_STRIDE`; on success also report
the index of the interaction whose range supplied the key. -/
def findPlace (cfg : SortConfig) (c : Comparator) (m : Nat) :
    List (List Char) → ℚ → Option (Nat × ℚ)
  | [], _ => none
  | id :: rest, rb =>
    match placeInInteraction cfg c m id rb with
    | some k => some (0, k)
    | none => (findPlace cfg c m rest (rb + cfg.RANGE_STRIDE)).map
        (fun p => (p.1 + 1, p.2))

/-- Embedding of `dexmethods_profiled_comparator::get_method_sort_num`:
the key of the first interaction range that places the method, else
`VERY_END`. -/
def get_method_sort_num (cfg : SortConfig) (c : Comparator) (m : Nat) : ℚ :=
  match findPlace cfg c m c.interactions 0 with
  | some p => p.2
  | none => cfg.VERY_END

/-- Substring containment on character lists, the embedding of
`std::string::find(substr) != npos`. -/
def containsSub (sub : List Char) : List Char → Bool
  | [] => isPrefixOfCL sub []
  | c :: rest => isPrefixOfCL sub (c :: rest) || containsSub sub rest

/-- Whether the method's deobfuscated display name contains one of the
whitelisted substrings. -/
def whitelistMatch (c : Comparator) (m : Nat) : Bool :=
  c.whitelist.any (fun sub => containsSub sub (c.deobf m))

/-- Embedding of
`dexmethods_profiled_comparator::get_method_sort_num_override`: a
whitelist match is placed mid cold-start range, otherwise `VERY_END`. -/
def get_method_sort_num_override (cfg : SortConfig) (c : Comparator)
    (m : Nat) : ℚ :=
  if whitelistMatch c m then COLD_START_RANGE_BEGIN + cfg.RANGE_SIZE / 2
  else cfg.VERY_END

/-- The uncached key of the `get_sort_num` lambda in
`dexmethods_profiled_comparator::operator()`: the primary key, replaced by
the whitelist override exactly when the primary computation returned
`VERY_END`. -/
def finalSortNum (cfg : SortConfig) (c : Comparator) (m : Nat) : ℚ :=
  let w := get_method_sort_num cfg c m
  if w = cfg.VERY_END then get_method_sort_num_override cfg c m else w

/-- Embedding of the caching `get_sort_num` lambda: return the cached key
when present, otherwise compute the final key and `emplace` it. -/
def getSortNum (cfg : SortConfig) (c : Comparator) (cache : List (Nat × ℚ))
    (m : Nat) : ℚ × List (Nat × ℚ) :=
  match alookup cache m with
  | some w => (w, cache)
  | none => (finalSortNum cfg c m, aemplace cache m (finalSortNum cfg c m))

/-- Embedding of `dexmethods_profiled_comparator::operator()`: null handling
first, then the cached sort keys; equal keys fall back to the external
deterministic identity comparator `compare_dexmethods` (`idlt`). Returns
the comparison verdict together with the updated shared cache. -/
def compare_methods (cfg : SortConfig) (c : Comparator)
    (idlt : Nat → Nat → Bool) (cache : List (Nat × ℚ)) (a b : Option Nat) :
    Bool × List (Nat × ℚ) :=
  match a, b with
  | none, bb => (bb.isSome, cache)
  | some _, none => (false, cache)
  | some x, some y =>
    let p1 := getSortNum cfg c cache x
    let p2 := getSortNum cfg c p1.2 y
    if p1.1 = p2.1 then (idlt x y, p2.2) else (decide (p1.1 < p2.1), p2.2)

/-- A successful association-list lookup comes from a stored entry. -/
theorem alookup_mem {α β : Type} [DecidableEq α] {l : List (α × β)} {k : α}
    {v : β} (h : alookup l k = some v) : (k, v) ∈ l := by
  induction l with
  | nil => simp [alookup] at h
  | cons p rest ih =>
    obtain ⟨k0, v0⟩ := p
    by_cases hk : k = k0
    · subst hk
      simp [alookup] at h
      simp [h]
    · simp [alookup, hk] at h
      exact List.mem_cons_of_mem _ (ih h)

/-- The `emplace` of a key already present leaves the map unchanged. -/
theorem aemplace_of_some {α β : Type} [DecidableEq α] {l : List (α × β)}
    {k : α} {v w : β} (h : alookup l k = some v) : aemplace l k w = l := by
  simp [aemplace, h]

/-- The `emplace` of an absent key stores the new entry. -/
theorem aemplace_of_none {α β : Type} [DecidableEq α] {l : List (α × β)}
    {k : α} {v : β} (h : alookup l k = none) : aemplace l k v = (k, v) :: l := by
  simp [aemplace, h]

/-- Writing back the value a key already holds leaves the map unchanged. -/
theorem aset_self {α β : Type} [DecidableEq α] {l : List (α × β)} {k : α}
    {v : β} (h : alookup l k = some v) : aset l k v = l := by
  induction l with
  | nil => simp [alookup] at h
  | cons p rest ih =>
    obtain ⟨k0, v0⟩ := p
    by_cases hk : k = k0
    · subst hk
      simp [alookup] at h
      simp [aset, h]
    · simp [alookup, hk] at h
      simp [aset, hk, ih h]

/-- The symbol table of the verified concrete scenarios: it resolves exactly
the method signature `Lfoo;.bar:()V`, to the reference `0`. -/
def exSym : List Char → Option Nat :=
  fun cs => if cs = "Lfoo;.bar:()V".toList then some 0 else none

/-- A freshly constructed Profile Store. -/
def exInit : MPState := ⟨PMode.NONE, [], [], [], [], []⟩

/-- The metadata header line of the spec's concrete scenario. -/
def exHeaderMeta : List Char := "interaction,appear#".toList

/-- The metadata line of the spec's concrete scenario. -/
def exMetaLine : List Char := "ColdStart,1000".toList

/-- The MAIN header line of the spec's concrete scenario. -/
def exHeaderMain : List Char :=
  "index,name,appear100,appear#,avg_call,avg_order,avg_rank100,min_api_level".toList

/-- The data row of the spec's concrete scenario. -/
def exRow : List Char := "0,Lfoo;.bar:()V,99.0,990,5.0,900,10.0,15".toList

/-- The four lines of the spec's concrete scenario, in file order. -/
def exFile : List (List Char) := [exHeaderMeta, exMetaLine, exHeaderMain, exRow]

/-- The Stats record the scenario row parses to. -/
def exStats : Stats := ⟨99, 5, 10, 15⟩

/-- The Profile Store after parsing the concrete scenario file. -/
def exFinal : MPState :=
  ⟨PMode.MAIN, "ColdStart".toList, [("ColdStart".toList, 1000)], [],
   [("ColdStart".toList, [(0, exStats)])], []⟩

/-- A second data row for the same method with different statistics. -/
def exRowDup : List Char := "1,Lfoo;.bar:()V,50.0,500,2.0,400,20.0,14".toList

/-- A store in MAIN mode with active interaction `ColdStart` and no rows. -/
def exMainState : MPState := ⟨PMode.MAIN, "ColdStart".toList, [], [], [], []⟩

/-- A data row whose `min_api_level` cell is not numeric. -/
def exRowBadInt : List Char := "0,Lfoo;.bar:()V,99.0,990,5.0,900,10.0,abc".toList

/-- A data row whose `min_api_level` cell exceeds the 16-bit signed range. -/
def exRowBigInt : List Char := "0,Lfoo;.bar:()V,99.0,990,5.0,900,10.0,40000".toList

/-- A store in MAIN mode whose backlog holds one line naming a method the
symbol table cannot resolve. -/
def exUnresState : MPState :=
  ⟨PMode.MAIN, [], [], [], [],
   [("ColdStart".toList, ["0,Lmiss;.m:()V,99.0,990,5.0,900,10.0,15".toList])]⟩

/-- A MAIN header declaring the optional `interaction` column. -/
def exHeaderOptCol : List Char :=
  "index,name,appear100,appear#,avg_call,avg_order,avg_rank100,min_api_level,interaction".toList

/-- A data row whose optional `interaction` cell is the empty token. -/
def exRowEmptyOpt : List Char := "0,Lfoo;.bar:()V,99.0,990,5.0,900,10.0,15,".toList

/-- A MAIN header whose extra-column cell is the empty token. -/
def exHeaderEmptyOpt : List Char :=
  "index,name,appear100,appear#,avg_call,avg_order,avg_rank100,min_api_level,".toList

set_option allowUnsafeReducibility true

attribute [local semireducible] Rat.add Rat.mul Rat.div Rat.inv Rat.sub Rat.neg

/-- C1. The claim says a later row for the same (method, interaction) pair
replaces the stored Stats (last write wins). It is false: `emplace` never
overwrites. Parsing the scenario row (appear 99, call 5, order 10, api 15)
and then a second row for the same method with appear 50, call 2, order 20,
api 14 leaves the first record in the map; the two records differ. -/
theorem c1_counterexample :
    ((parse_main exSym exMainState exRow).bind fun s =>
        parse_main exSym s exRowDup) =
      PRes.ok ⟨PMode.MAIN, "ColdStart".toList, [], [],
        [("ColdStart".toList, [(0, exStats)])], []⟩ ∧
    exStats ≠ (⟨50, 2, 20, 14⟩ : Stats) := by
  constructor
  · decide
  · decide

/-- C1 (amended): on a well-formed MAIN data row whose resolved (method,
interaction) pair already has an entry in that interaction's StatsMap, the
parse succeeds and the store is unchanged — the first write wins, the newly
parsed Stats record is dropped (`emplace` inserts only absent keys). -/
theorem c1_duplicate_row_keeps_existing_stats
    (sym : List Char → Option Nat) (s : MPState) (line : List Char)
    (r : Nat) (iidRow : List Char) (st : Stats) (sm : List (Nat × Stats))
    (stOld : Stats)
    (hmode : s.m_mode = PMode.MAIN)
    (hcells : run_cells (main_cell sym s.m_optional_columns) (splitComma line) 0
        (none, [], ⟨0, 0, 0, 0⟩) = .ok (some r, iidRow, st))
    (hsm : alookup s.m_method_stats
        (if iidRow = [] then s.m_interaction_id else iidRow) = some sm)
    (hold : alookup sm r = some stOld) :
    parse_main sym s line = PRes.ok s := by
  obtain ⟨mo, ii, ic, oc, ms, ul⟩ := s
  simp only at hmode hcells hsm
  subst hmode
  simp [parse_main, hcells, PRes.bind, updateStats, hsm,
    aemplace_of_some hold, aset_self hsm]

/-- C1 witness: the amended theorem applied to the concrete duplicate row. -/
theorem c1_duplicate_row_keeps_existing_stats_witness :
    parse_main exSym
      ⟨PMode.MAIN, "ColdStart".toList, [], [],
        [("ColdStart".toList, [(0, exStats)])], []⟩ exRowDup =
      PRes.ok ⟨PMode.MAIN, "ColdStart".toList, [], [],
        [("ColdStart".toList, [(0, exStats)])], []⟩ :=
  c1_duplicate_row_keeps_existing_stats exSym _ exRowDup 0 [] ⟨50, 2, 20, 14⟩
    [(0, exStats)] exStats rfl (by decide) (by decide) (by decide)

/-- C2. The claim says a retry-pass resolution failure reaches the failed
assertion (fatal). It is false: `parse_main` reports success for unresolved
rows, so `process_unresolved_lines` on a backlog whose only line still does
not resolve (empty symbol table) returns successfully with the line back in
the backlog. -/
theorem c2_counterexample :
    process_unresolved_lines (fun _ => none) exUnresState =
      PRes.ok ⟨PMode.MAIN, "ColdStart".toList, [], [], [],
        [("ColdStart".toList,
          ["0,Lmiss;.m:()V,99.0,990,5.0,900,10.0,15".toList])]⟩ ∧
    (PRes.ok ⟨PMode.MAIN, "ColdStart".toList, [], [], [],
        [("ColdStart".toList,
          ["0,Lmiss;.m:()V,99.0,990,5.0,900,10.0,15".toList])]⟩ :
      PRes MPState) ≠ PRes.fatal := by
  constructor
  · decide
  · decide

/-- C2 (amended): `process_unresolved_lines` re-parses every stored line as
a MAIN row under its originally recorded InteractionId; a line whose method
name again fails to resolve is appended back to the unresolved backlog and
the call reports success — the fatal assertion fires only when `parse_main`
returns false outright, not on resolution failure. -/
theorem c2_retry_failure_readds_to_backlog
    (sym : List Char → Option Nat) (s : MPState)
    (iid line iidRow : List Char) (st : Stats)
    (hmode : s.m_mode = PMode.MAIN)
    (hbl : s.m_unresolved_lines = [(iid, [line])])
    (hcells : run_cells (main_cell sym s.m_optional_columns) (splitComma line) 0
        (none, [], ⟨0, 0, 0, 0⟩) = .ok (none, iidRow, st)) :
    process_unresolved_lines sym s =
      PRes.ok { s with
                  m_interaction_id := iid,
                  m_unresolved_lines :=
                    [((if iidRow = [] then iid else iidRow), [line])] } := by
  obtain ⟨mo, ii, ic, oc, ms, ul⟩ := s
  simp only at hmode hbl hcells
  subst hmode
  subst hbl
  simp [process_unresolved_lines, process_unresolved_groups,
    process_unresolved_group, parse_main, hcells, PRes.bind, pushUnresolved,
    alookup]

/-- C2 witness: the amended theorem at the concrete unresolved backlog. -/
theorem c2_retry_failure_readds_to_backlog_witness :
    process_unresolved_lines (fun _ => none) exUnresState =
      PRes.ok ⟨PMode.MAIN, "ColdStart".toList, [], [], [],
        [("ColdStart".toList,
          ["0,Lmiss;.m:()V,99.0,990,5.0,900,10.0,15".toList])]⟩ :=
  c2_retry_failure_readds_to_backlog (fun _ => none) exUnresState
    "ColdStart".toList "0,Lmiss;.m:()V,99.0,990,5.0,900,10.0,15".toList []
    ⟨99, 5, 10, 15⟩ rfl rfl (by decide)

/-- C3. The claim says malformed or out-of-range numeric cells make the
whole-file parse return an ordinary failure result rather than terminating
the process. It is false: `parse_int` / `parse_double` discharge these
conditions through `always_assert_log`, which terminates the process; the
parse of a file whose `min_api_level` cell is `abc` ends in the fatal
outcome, which is not the ordinary false return. -/
theorem c3_counterexample :
    parse_stats_file exSym exInit [exHeaderMain, exRowBadInt] = PRes.fatal ∧
    (PRes.fatal : PRes MPState) ≠ PRes.err := by
  constructor
  · decide
  · decide

/-- C3 (amended): a numeric cell that consumes no digits, carries trailing
text other than a lone line terminator, or lies outside the asserted
integer range never produces the ordinary false return: `parse_int` and
`parse_double` can only succeed or terminate the process, and both the
malformed (`abc`) and the out-of-16-bit-range (`40000`) `min_api_level`
cells drive the whole-file parse to the fatal outcome. -/
theorem c3_numeric_failures_are_fatal :
    (∀ tok, parse_int tok ≠ PRes.err) ∧
    (∀ tok, parse_double tok ≠ PRes.err) ∧
    parse_stats_file exSym exInit [exHeaderMain, exRowBadInt] = PRes.fatal ∧
    parse_stats_file exSym exInit [exHeaderMain, exRowBigInt] = PRes.fatal := by
  refine ⟨fun tok => ?_, fun tok => ?_, by decide, by decide⟩
  · simp only [parse_int]
    split
    · simp
    · split <;> simp
  · simp only [parse_double]
    split
    · simp
    · split <;> simp

/-- C4. The claim expects `method_stats("")` to also return the one-entry
map after the scenario parse. It is false: the row is stored under
`ColdStart` (the metadata id), and the empty-string query neither finds a
stored map nor qualifies for the cold-start fallback, so it returns the
empty map. -/
theorem c4_counterexample :
    parse_stats_file exSym exInit exFile = PRes.ok exFinal ∧
    method_stats exFinal.m_method_stats [] = [] := by
  constructor
  · decide
  · decide

/-- C4 (amended): parsing the scenario file succeeds, and
`method_stats("ColdStart")` returns the map with exactly one entry, for the
resolved method, with appear_percent 99, call_count 5, order_percent 10 and
min_api_level 15; `method_stats("")` returns the empty map (the legacy
fallback works only in the other direction). -/
theorem c4_scenario_parse :
    parse_stats_file exSym exInit exFile = PRes.ok exFinal ∧
    method_stats exFinal.m_method_stats "ColdStart".toList =
      [(0, ⟨99, 5, 10, 15⟩)] ∧
    method_stats exFinal.m_method_stats [] = [] := by
  refine ⟨by decide, by decide, by decide⟩

/-- C5. The interaction sort comparator answers `true` in both directions
for the pair (`ColdStart`, `AnInteraction`) — despite its own comment
`Cold Start always comes first;` it is not a strict weak ordering — and the
insertion-sort model of `std::sort` on the traversal order
`[ColdStart, AnInteraction]` leaves `AnInteraction` first. -/
theorem c5_coldstart_not_always_first :
    interaction_lt COLD_START "AnInteraction".toList = true ∧
    interaction_lt "AnInteraction".toList COLD_START = true ∧
    comparator_interactions false [COLD_START, "AnInteraction".toList] =
      ["AnInteraction".toList, COLD_START] := by
  refine ⟨by decide, by decide, by decide⟩

/-- C8: `method_stats` returns the stored map when the interaction id is
present; otherwise, for the canonical cold-start id, the map stored under
the empty string (or the empty map when that is also absent); otherwise the
empty map. The function is total and pure, so it never fails and never
modifies the store. -/
theorem c8_method_stats_lookup
    (all : List (List Char × List (Nat × Stats))) (iid : List Char) :
    (∀ sm, alookup all iid = some sm → method_stats all iid = sm) ∧
    (alookup all iid = none → iid = COLD_START →
      method_stats all iid = (alookup all []).getD []) ∧
    (alookup all iid = none → iid ≠ COLD_START → method_stats all iid = []) := by
  refine ⟨fun sm h => ?_, fun h h2 => ?_, fun h h2 => ?_⟩
  · simp [method_stats, h]
  · subst h2
    simp only [method_stats, h]
    cases halt : alookup all [] <;> simp [halt]
  · simp [method_stats, h, h2]

/-- C8 witness: a store holding only the legacy empty-string interaction,
queried under the canonical cold-start id, returns that same map. -/
theorem c8_method_stats_lookup_witness :
    method_stats [(([] : List Char), [(5, exStats)])] COLD_START =
      [(5, exStats)] :=
  ((c8_method_stats_lookup [(([] : List Char), [(5, exStats)])] COLD_START).2.1
    (by decide) rfl).trans (by decide)

/-- C10: when the recognized optional `interaction` cell of a MAIN data row
is the empty token, or a MAIN header's extra-column cell is the empty
token, the trailing-terminator stripping reads the last character of an
empty string; in this total embedding that access returns `Option`, and
both parses reach its `none` (undefined-behaviour) branch. -/
theorem c10_empty_cell_strip_reaches_none :
    parse_stats_file exSym exInit [exHeaderOptCol, exRowEmptyOpt] =
      PRes.ub ∧
    parse_stats_file exSym exInit [exHeaderEmptyOpt] = PRes.ub := by
  constructor
  · decide
  · decide

/-- The spec's data-model range constraint on stored statistics:
`order_percent` is a percentile in [0, 100] for every stored record. -/
def statsBounded (ps : List (List Char × List (Nat × Stats))) : Prop :=
  ∀ p ∈ ps, ∀ q ∈ p.2,
    0 ≤ (q.2 : Stats).order_percent ∧ (q.2 : Stats).order_percent ≤ 100

/-- A sort-key configuration witnessing the spec's constraints:
range size 10, stride 100, `VERY_END` beyond every allocated range. -/
def exCfg : SortConfig := ⟨10, 100, 1000000⟩

/-- A cold-start record placed high in the range (order 90 → key 9). -/
def exStatsHot : Stats := ⟨95, 1, 90, 0⟩

/-- A record in the second interaction (order 50 → key 105). -/
def exStatsOther : Stats := ⟨95, 1, 50, 0⟩

/-- A cold-start record placed low in the range (order 10 → key 1). -/
def exStatsLow : Stats := ⟨95, 1, 10, 0⟩

/-- A concrete comparator over two interactions: methods 1 and 6 placed in
cold start, method 2 in the second interaction, method 3 unplaced but with
a whitelisted display name, method 4 unplaced with no match. -/
def exComp : Comparator :=
  ⟨[("ColdStart".toList, [(1, exStatsHot), (6, exStatsLow)]),
    ("Other".toList, [(2, exStatsOther)])],
   ["ColdStart".toList, "Other".toList], none, none, false,
   ["White".toList], fun m => if m = 3 then "AWhiteName".toList else "x".toList⟩

/-- A deterministic identity tie-break comparator for the scenarios. -/
def exIdLt : Nat → Nat → Bool := fun a b => decide (a < b)

/-- A record looked up through `method_stats` comes from a stored map, so
the spec's percentile bound applies to it. -/
theorem statsBounded_method_stats
    (ps : List (List Char × List (Nat × Stats))) (iid : List Char) (m : Nat)
    (st : Stats) (hb : statsBounded ps)
    (h : alookup (method_stats ps iid) m = some st) :
    0 ≤ st.order_percent ∧ st.order_percent ≤ 100 := by
  cases hp : alookup ps iid with
  | some sm =>
    simp only [method_stats, hp] at h
    exact hb _ (alookup_mem hp) _ (alookup_mem h)
  | none =>
    simp only [method_stats, hp] at h
    split at h
    · cases hq : alookup ps [] with
      | some sm =>
        simp only [hq] at h
        exact hb _ (alookup_mem hq) _ (alookup_mem h)
      | none =>
        simp only [hq, alookup] at h
        exact Option.noConfusion h
    · simp [alookup] at h

/-- Any key produced by a single interaction's placement lies inside that
interaction's real range `[rb, rb + RANGE_SIZE]`. -/
theorem placeInInteraction_bounds
    (cfg : SortConfig) (c : Comparator) (m : Nat) (id : List Char) (rb k : ℚ)
    (hsz : 0 ≤ cfg.RANGE_SIZE) (hb : statsBounded c.profiles)
    (h : placeInInteraction cfg c m id rb = some k) :
    rb ≤ k ∧ k ≤ rb + cfg.RANGE_SIZE := by
  simp only [placeInInteraction] at h
  split at h
  · -- the marker produced the key
    rename_i k0 hmark
    split at hmark
    · split at hmark
      · cases hmark
        cases h
        constructor
        · exact le_refl rb
        · linarith
      · split at hmark
        · cases hmark
          cases h
          constructor
          · linarith
          · exact le_refl _
        · cases hmark
    · cases hmark
  · -- the stats heuristic
    split at h
    · rename_i st hst
      have hbst := statsBounded_method_stats c.profiles id m st hb hst
      split at h
      · cases h
        constructor
        · linarith
        · linarith
      · split at h
        · cases h
          have hnum : 0 ≤ st.order_percent * cfg.RANGE_SIZE :=
            mul_nonneg hbst.1 hsz
          have hden : (0 : ℚ) < 100 := by norm_num
          have hlow : 0 ≤ st.order_percent * cfg.RANGE_SIZE / 100 :=
            div_nonneg hnum (le_of_lt hden)
          have hupn : st.order_percent * cfg.RANGE_SIZE ≤
              100 * cfg.RANGE_SIZE :=
            mul_le_mul_of_nonneg_right hbst.2 hsz
          have hup : st.order_percent * cfg.RANGE_SIZE / 100 ≤
              cfg.RANGE_SIZE := by
            rw [div_le_iff₀ hden]
            linarith
          constructor
          · linarith
          · linarith
        · cases h
    · cases h

/-- Any key produced by the range walk starting at `rb` lies inside the real
range of the interaction that produced it, whose index is in bounds. -/
theorem findPlace_bounds
    (cfg : SortConfig) (c : Comparator) (m : Nat)
    (hsz : 0 ≤ cfg.RANGE_SIZE) (hb : statsBounded c.profiles) :
    ∀ (ints : List (List Char)) (rb : ℚ) (i : Nat) (k : ℚ),
      findPlace cfg c m ints rb = some (i, k) →
      rb + i * cfg.RANGE_STRIDE ≤ k ∧
      k ≤ rb + i * cfg.RANGE_STRIDE + cfg.RANGE_SIZE ∧ i < ints.length := by
  intro ints
  induction ints with
  | nil =>
    intro rb i k h
    simp [findPlace] at h
  | cons id rest ih =>
    intro rb i k h
    simp only [findPlace] at h
    cases hp : placeInInteraction cfg c m id rb with
    | some k0 =>
      rw [hp] at h
      simp only [Option.some.injEq, Prod.mk.injEq] at h
      obtain ⟨hi, hk⟩ := h
      subst hk
      have hbk := placeInInteraction_bounds cfg c m id rb k0 hsz hb hp
      subst hi
      refine ⟨by push_cast; linarith [hbk.1], by push_cast; linarith [hbk.2], ?_⟩
      simp
    | none =>
      rw [hp] at h
      simp only [Option.map_eq_some'] at h
      obtain ⟨⟨a, b⟩, hfp, hab⟩ := h
      obtain ⟨ha, hb2⟩ := Prod.mk.injEq .. ▸ hab
      subst hb2
      have hrec := ih (rb + cfg.RANGE_STRIDE) a b hfp
      subst ha
      refine ⟨by push_cast; linarith [hrec.1], by push_cast; linarith [hrec.2.1], ?_⟩
      simpa using Nat.succ_lt_succ hrec.2.2

/-- After `getSortNum`, the method's key is in the cache, and every entry
already cached is untouched. -/
theorem getSortNum_lookup (cfg : SortConfig) (c : Comparator)
    (cache c2 : List (Nat × ℚ)) (m : Nat) (w : ℚ)
    (h : getSortNum cfg c cache m = (w, c2)) :
    alookup c2 m = some w ∧
    ∀ k v, alookup cache k = some v → alookup c2 k = some v := by
  cases hc : alookup cache m with
  | some w0 =>
    simp only [getSortNum, hc, Prod.mk.injEq] at h
    obtain ⟨hw, hcc⟩ := h
    subst hw
    subst hcc
    exact ⟨hc, fun k v hv => hv⟩
  | none =>
    simp only [getSortNum, hc, Prod.mk.injEq] at h
    obtain ⟨hw, hcc⟩ := h
    subst hw
    rw [aemplace_of_none hc] at hcc
    subst hcc
    constructor
    · simp [alookup]
    · intro k v hv
      have hk : k ≠ m := by
        intro he
        subst he
        rw [hv] at hc
        exact Option.noConfusion hc
      simp [alookup, hk, hv]

/-- C9: the comparator computes a method's sort key at most once. A cached
key is returned as-is — for any Profile Store contents, so later (even
incorrect) mutation of the store cannot change it — and re-comparing the
same pair with the cache produced by a first comparison yields the same
verdict and leaves the cache unchanged, again for any store contents. -/
theorem c9_cache_idempotence :
    (∀ (cfg : SortConfig) (c : Comparator) (cache : List (Nat × ℚ))
       (m : Nat) (w : ℚ),
       alookup cache m = some w → getSortNum cfg c cache m = (w, cache)) ∧
    (∀ (cfg cfg2 : SortConfig) (c c2 : Comparator) (idlt : Nat → Nat → Bool)
       (cache : List (Nat × ℚ)) (a b : Option Nat) (r : Bool)
       (cache1 : List (Nat × ℚ)),
       compare_methods cfg c idlt cache a b = (r, cache1) →
       compare_methods cfg2 c2 idlt cache1 a b = (r, cache1)) := by
  constructor
  · intro cfg c cache m w h
    simp [getSortNum, h]
  · intro cfg cfg2 c c2 idlt cache a b r cache1 h
    cases a with
    | none =>
      simp only [compare_methods, Prod.mk.injEq] at h
      obtain ⟨hr, hc⟩ := h
      subst hr
      subst hc
      rfl
    | some x =>
      cases b with
      | none =>
        simp only [compare_methods, Prod.mk.injEq] at h
        obtain ⟨hr, hc⟩ := h
        subst hr
        subst hc
        rfl
      | some y =>
        rcases hx : getSortNum cfg c cache x with ⟨wx, cx⟩
        rcases hy : getSortNum cfg c cx y with ⟨wy, cy⟩
        simp only [compare_methods, hx, hy] at h
        have hlx := getSortNum_lookup cfg c cache cx x wx hx
        have hly := getSortNum_lookup cfg c cx cy y wy hy
        have hxy : alookup cy x = some wx := hly.2 x wx hlx.1
        have hsplit : r = (if wx = wy then idlt x y else decide (wx < wy)) ∧
            cache1 = cy := by
          by_cases hw : wx = wy
          · rw [if_pos hw]
            simp [hw] at h
            exact ⟨h.1.symm, h.2.symm⟩
          · rw [if_neg hw]
            simp [hw] at h
            exact ⟨h.1.symm, h.2.symm⟩
        obtain ⟨hr, hc1⟩ := hsplit
        subst hr
        subst hc1
        have ex : getSortNum cfg2 c2 cache1 x = (wx, cache1) := by
          simp [getSortNum, hxy]
        have ey : getSortNum cfg2 c2 cache1 y = (wy, cache1) := by
          simp [getSortNum, hly.1]
        simp only [compare_methods, ex, ey]
        by_cases hw : wx = wy
        · simp [hw]
        · simp [hw]

/-- C9 witness: a pre-cached key is returned unchanged, and re-comparing
the pair (1, 2) with the cache of the first comparison reproduces the
verdict and the cache. -/
theorem c9_cache_idempotence_witness :
    getSortNum exCfg exComp [(7, 3)] 7 = (3, [(7, 3)]) ∧
    compare_methods exCfg exComp exIdLt [(2, 105), (1, 9)] (some 1) (some 2) =
      (true, [(2, 105), (1, 9)]) :=
  ⟨c9_cache_idempotence.1 exCfg exComp [(7, 3)] 7 3 rfl,
   c9_cache_idempotence.2 exCfg exCfg exComp exComp exIdLt [] (some 1)
     (some 2) true [(2, 105), (1, 9)] (by decide)⟩

/-- A placed method's key is the value `get_method_sort_num` returns. -/
theorem get_method_sort_num_of_findPlace (cfg : SortConfig) (c : Comparator)
    (m i : Nat) (k : ℚ)
    (h : findPlace cfg c m c.interactions 0 = some (i, k)) :
    get_method_sort_num cfg c m = k := by
  simp [get_method_sort_num, h]

/-- C6: under the spec's configuration constraints (`0 ≤ RANGE_SIZE <
RANGE_STRIDE`, `VERY_END` beyond all allocated ranges) and its percentile
bound on stored statistics, a method keyed by an earlier interaction's range
has a strictly smaller sort key than a method keyed by a later
interaction's range, and with an empty cache (no caching interference) the
comparator sorts the former strictly before the latter. -/
theorem c6_monotonic_interaction_layout
    (cfg : SortConfig) (c : Comparator) (idlt : Nat → Nat → Bool)
    (m1 m2 i j : Nat) (k1 k2 : ℚ)
    (hsz : 0 ≤ cfg.RANGE_SIZE)
    (hstride : cfg.RANGE_SIZE < cfg.RANGE_STRIDE)
    (hve : (c.interactions.length : ℚ) * cfg.RANGE_STRIDE < cfg.VERY_END)
    (hb : statsBounded c.profiles)
    (h1 : findPlace cfg c m1 c.interactions 0 = some (i, k1))
    (h2 : findPlace cfg c m2 c.interactions 0 = some (j, k2))
    (hij : i < j) :
    get_method_sort_num cfg c m1 < get_method_sort_num cfg c m2 ∧
    (compare_methods cfg c idlt [] (some m1) (some m2)).1 = true ∧
    (compare_methods cfg c idlt [] (some m2) (some m1)).1 = false := by
  have hb1 := findPlace_bounds cfg c m1 hsz hb c.interactions 0 i k1 h1
  have hb2 := findPlace_bounds cfg c m2 hsz hb c.interactions 0 j k2 h2
  have hstr0 : 0 < cfg.RANGE_STRIDE := lt_of_le_of_lt hsz hstride
  have hcij : (i : ℚ) + 1 ≤ (j : ℚ) := by exact_mod_cast hij
  have hstep : ((i : ℚ) + 1) * cfg.RANGE_STRIDE ≤ (j : ℚ) * cfg.RANGE_STRIDE :=
    mul_le_mul_of_nonneg_right hcij (le_of_lt hstr0)
  have hk12 : k1 < k2 := by nlinarith [hb1.2.1, hb2.1]
  have hclen1 : (i : ℚ) + 1 ≤ (c.interactions.length : ℚ) := by
    exact_mod_cast hb1.2.2
  have hclen2 : (j : ℚ) + 1 ≤ (c.interactions.length : ℚ) := by
    exact_mod_cast hb2.2.2
  have hk1ve : k1 < cfg.VERY_END := by nlinarith [hb1.2.1]
  have hk2ve : k2 < cfg.VERY_END := by nlinarith [hb2.2.1]
  have hg1 : get_method_sort_num cfg c m1 = k1 :=
    get_method_sort_num_of_findPlace cfg c m1 i k1 h1
  have hg2 : get_method_sort_num cfg c m2 = k2 :=
    get_method_sort_num_of_findPlace cfg c m2 j k2 h2
  have hm12 : m1 ≠ m2 := by
    intro he
    subst he
    rw [h1] at h2
    simp at h2
    exact absurd h2.1 (Nat.ne_of_lt hij)
  have hf1 : finalSortNum cfg c m1 = k1 := by
    simp [finalSortNum, hg1, ne_of_lt hk1ve]
  have hf2 : finalSortNum cfg c m2 = k2 := by
    simp [finalSortNum, hg2, ne_of_lt hk2ve]
  have hm21 : ¬(m2 = m1) := fun hh => hm12 hh.symm
  have e1 : getSortNum cfg c [] m1 = (k1, [(m1, k1)]) := by
    simp [getSortNum, alookup, aemplace, hf1]
  have e2 : getSortNum cfg c [(m1, k1)] m2 = (k2, [(m2, k2), (m1, k1)]) := by
    simp [getSortNum, alookup, aemplace, hf2, hm21]
  have e3 : getSortNum cfg c [] m2 = (k2, [(m2, k2)]) := by
    simp [getSortNum, alookup, aemplace, hf2]
  have e4 : getSortNum cfg c [(m2, k2)] m1 = (k1, [(m1, k1), (m2, k2)]) := by
    simp [getSortNum, alookup, aemplace, hf1, hm12]
  refine ⟨hg1 ▸ hg2 ▸ hk12, ?_, ?_⟩
  · simp only [compare_methods, e1, e2]
    simp [ne_of_lt hk12, hk12]
  · simp only [compare_methods, e3, e4]
    simp [ne_of_gt hk12, not_lt_of_lt hk12]

/-- C6 witness: in the concrete comparator, method 1 (cold-start range,
key 9) sorts strictly before method 2 (second interaction's range,
key 105). -/
theorem c6_monotonic_interaction_layout_witness :
    (compare_methods exCfg exComp exIdLt [] (some 1) (some 2)).1 = true ∧
    (compare_methods exCfg exComp exIdLt [] (some 2) (some 1)).1 = false :=
  (c6_monotonic_interaction_layout exCfg exComp exIdLt 1 2 0 1 9 105
    (by decide) (by decide) (by norm_num [exComp, exCfg])
    (by unfold statsBounded; decide) (by decide) (by decide) (by decide)).2

/-- C7. The claim says a whitelisted method with no profile placement sorts
strictly after every method placed anywhere inside some interaction's real
range. It is false: method 1 is placed inside cold start's real range at
key 9, above the override midpoint 5, so the whitelisted method 3 sorts
strictly before it. -/
theorem c7_counterexample :
    get_method_sort_num exCfg exComp 3 = exCfg.VERY_END ∧
    whitelistMatch exComp 3 = true ∧
    findPlace exCfg exComp 1 exComp.interactions 0 = some (0, 9) ∧
    (compare_methods exCfg exComp exIdLt [] (some 3) (some 1)).1 = true ∧
    (compare_methods exCfg exComp exIdLt [] (some 1) (some 3)).1 = false := by
  refine ⟨by decide, by decide, by decide, by decide, by decide⟩

/-- C7 (amended): a method whose primary computation returns `VERY_END` and
whose deobfuscated name matches a whitelisted substring is keyed at
`COLD_START_RANGE_BEGIN + RANGE_SIZE / 2`; it sorts strictly before every
method with no placement and no whitelist match, strictly after every
placed method whose key is strictly below that midpoint (not after every
placed method), and the override is never applied when the primary
computation returned a value other than `VERY_END`. -/
theorem c7_whitelist_override
    (cfg : SortConfig) (c : Comparator) (idlt : Nat → Nat → Bool) (m : Nat)
    (hsz : 0 ≤ cfg.RANGE_SIZE)
    (hstride : cfg.RANGE_SIZE < cfg.RANGE_STRIDE)
    (hlen : 1 ≤ c.interactions.length)
    (hve : (c.interactions.length : ℚ) * cfg.RANGE_STRIDE < cfg.VERY_END)
    (hb : statsBounded c.profiles)
    (hprim : get_method_sort_num cfg c m = cfg.VERY_END)
    (hwl : whitelistMatch c m = true) :
    finalSortNum cfg c m = COLD_START_RANGE_BEGIN + cfg.RANGE_SIZE / 2 ∧
    (∀ m2, get_method_sort_num cfg c m2 = cfg.VERY_END →
       whitelistMatch c m2 = false →
       (compare_methods cfg c idlt [] (some m) (some m2)).1 = true) ∧
    (∀ m2 j k, findPlace cfg c m2 c.interactions 0 = some (j, k) →
       k < COLD_START_RANGE_BEGIN + cfg.RANGE_SIZE / 2 →
       (compare_methods cfg c idlt [] (some m2) (some m)).1 = true ∧
       (compare_methods cfg c idlt [] (some m) (some m2)).1 = false) ∧
    (∀ m3, get_method_sort_num cfg c m3 ≠ cfg.VERY_END →
       finalSortNum cfg c m3 = get_method_sort_num cfg c m3) := by
  have hstr0 : 0 < cfg.RANGE_STRIDE := lt_of_le_of_lt hsz hstride
  have hclen : (1 : ℚ) ≤ (c.interactions.length : ℚ) := by exact_mod_cast hlen
  have hmidve : COLD_START_RANGE_BEGIN + cfg.RANGE_SIZE / 2 < cfg.VERY_END := by
    simp only [COLD_START_RANGE_BEGIN]
    nlinarith
  have hfm : finalSortNum cfg c m =
      COLD_START_RANGE_BEGIN + cfg.RANGE_SIZE / 2 := by
    simp [finalSortNum, hprim, get_method_sort_num_override, hwl]
  refine ⟨hfm, ?_, ?_, ?_⟩
  · intro m2 hprim2 hwl2
    have hf2 : finalSortNum cfg c m2 = cfg.VERY_END := by
      simp [finalSortNum, hprim2, get_method_sort_num_override, hwl2]
    have hm2m : m2 ≠ m := by
      intro he
      subst he
      rw [hfm] at hf2
      exact absurd hf2 (ne_of_lt hmidve)
    have hmm2 : ¬(m2 = m) := hm2m
    have e1 : getSortNum cfg c [] m =
        (COLD_START_RANGE_BEGIN + cfg.RANGE_SIZE / 2,
         [(m, COLD_START_RANGE_BEGIN + cfg.RANGE_SIZE / 2)]) := by
      simp [getSortNum, alookup, aemplace, hfm]
    have e2 : getSortNum cfg c
        [(m, COLD_START_RANGE_BEGIN + cfg.RANGE_SIZE / 2)] m2 =
        (cfg.VERY_END,
         [(m2, cfg.VERY_END),
          (m, COLD_START_RANGE_BEGIN + cfg.RANGE_SIZE / 2)]) := by
      simp [getSortNum, alookup, aemplace, hf2, hmm2]
    simp only [compare_methods, e1, e2]
    simp [ne_of_lt hmidve, hmidve]
  · intro m2 j k hfp hk
    have hbk := findPlace_bounds cfg c m2 hsz hb c.interactions 0 j k hfp
    have hcj : (j : ℚ) + 1 ≤ (c.interactions.length : ℚ) := by
      exact_mod_cast hbk.2.2
    have hkve : k < cfg.VERY_END := by nlinarith [hbk.2.1]
    have hg2 : get_method_sort_num cfg c m2 = k :=
      get_method_sort_num_of_findPlace cfg c m2 j k hfp
    have hf2 : finalSortNum cfg c m2 = k := by
      simp [finalSortNum, hg2, ne_of_lt hkve]
    have hm2m : m2 ≠ m := by
      intro he
      subst he
      rw [hfm] at hf2
      exact absurd hf2.symm (ne_of_lt hk)
    have hmm2 : ¬(m = m2) := fun hh => hm2m hh.symm
    have e1 : getSortNum cfg c [] m2 = (k, [(m2, k)]) := by
      simp [getSortNum, alookup, aemplace, hf2]
    have e2 : getSortNum cfg c [(m2, k)] m =
        (COLD_START_RANGE_BEGIN + cfg.RANGE_SIZE / 2,
         [(m, COLD_START_RANGE_BEGIN + cfg.RANGE_SIZE / 2), (m2, k)]) := by
      simp [getSortNum, alookup, aemplace, hfm, hmm2]
    have e3 : getSortNum cfg c [] m =
        (COLD_START_RANGE_BEGIN + cfg.RANGE_SIZE / 2,
         [(m, COLD_START_RANGE_BEGIN + cfg.RANGE_SIZE / 2)]) := by
      simp [getSortNum, alookup, aemplace, hfm]
    have e4 : getSortNum cfg c
        [(m, COLD_START_RANGE_BEGIN + cfg.RANGE_SIZE / 2)] m2 =
        (k, [(m2, k), (m, COLD_START_RANGE_BEGIN + cfg.RANGE_SIZE / 2)]) := by
      simp [getSortNum, alookup, aemplace, hf2, hm2m]
    constructor
    · simp only [compare_methods, e1, e2]
      simp [ne_of_lt hk, hk]
    · simp only [compare_methods, e3, e4]
      simp [ne_of_gt hk, not_lt_of_lt hk]
  · intro m3 hne
    simp [finalSortNum, hne]

/-- C7 witness: in the concrete comparator, the whitelisted method 3 is
keyed at the cold-start midpoint, sorts before the unmatched unplaced
method 4, and sorts after method 6, which is placed below the midpoint. -/
theorem c7_whitelist_override_witness :
    finalSortNum exCfg exComp 3 =
      COLD_START_RANGE_BEGIN + exCfg.RANGE_SIZE / 2 ∧
    (compare_methods exCfg exComp exIdLt [] (some 3) (some 4)).1 = true ∧
    (compare_methods exCfg exComp exIdLt [] (some 6) (some 3)).1 = true ∧
    (compare_methods exCfg exComp exIdLt [] (some 3) (some 6)).1 = false := by
  have h := c7_whitelist_override exCfg exComp exIdLt 3 (by decide) (by decide)
    (by decide) (by norm_num [exComp, exCfg]) (by unfold statsBounded; decide)
    (by decide) (by decide)
  have h6 := h.2.2.1 6 0 1 (by decide) (by norm_num [exCfg, COLD_START_RANGE_BEGIN])
  exact ⟨h.1, h.2.1 4 (by decide) (by decide), h6.1, h6.2⟩
